import Mathlib

/-!
Verification of the `sync_standards` pipeline: a shallow embedding of
`scripts/sync_standards/parser.py`, `validator.py`, `generator.py` and
`transformers/base.py` over `List Char`, together with theorems settling
the frozen claims about the natural-language specification.

Python strings are modelled as `List Char` (Python `len`/slicing count code
points, as does `List.length` here).  Python `str.lower` / `\w` / `\s` are
modelled on their ASCII behaviour, which covers every character the
embedded tables and claims use.
-/

set_option maxRecDepth 20000

namespace SyncStd

abbrev Chars := List Char

def strChars (s : String) : Chars := s.data

/-- Python `str.strip` whitespace set: space, \t, \n, \r, \x0b, \x0c. -/
def isPySpace (c : Char) : Bool :=
  c = ' ' || c = '\t' || c = '\n' || c = '\r' || c = Char.ofNat 11 || c = Char.ofNat 12

def pyStrip (s : Chars) : Chars :=
  ((s.dropWhile isPySpace).reverse.dropWhile isPySpace).reverse

def pyLower (s : Chars) : Chars := s.map Char.toLower

/-- Python `s.split("\n")`. -/
def splitNlAux : Chars → Chars → List Chars
  | acc, [] => [acc.reverse]
  | acc, c :: rest =>
    if c = '\n' then acc.reverse :: splitNlAux [] rest else splitNlAux (c :: acc) rest

def splitNl (s : Chars) : List Chars := splitNlAux [] s

/-- Python `sep.join(parts)`. -/
def joinSep (sep : Chars) : List Chars → Chars
  | [] => []
  | [l] => l
  | l :: l2 :: ls => l ++ sep ++ joinSep sep (l2 :: ls)

def joinNl (ls : List Chars) : Chars := joinSep (strChars "\n") ls

/-- Python `needle in hay` substring test. -/
def pyContains (needle : Chars) : Chars → Bool
  | [] => needle.isEmpty
  | c :: t => needle.isPrefixOf (c :: t) || pyContains needle t

/-- Python `l[-n:]`. -/
def lastN (n : Nat) (l : List α) : List α := l.drop (l.length - n)

/-! ### Data model (`parser.py`: `CodeExample`, `Rule`) -/

structure CodeExample where
  code : Chars
  language : Chars
  is_correct : Bool
deriving DecidableEq, Repr

/-- Structure `Rule` from `parser.py`; the Python field `section` is spelled
`sectionTitle` because `section` is a Lean keyword. -/
structure Rule where
  sectionTitle : Chars
  subsection : Option Chars
  title : Chars
  content : Chars
  examples : List CodeExample
  priority : Nat
  scope : List Chars
  tags : List Chars
deriving DecidableEq, Repr

/-! ### Insertion-ordered dictionary (Python `dict`) -/

/-- Python `d[k] = v`: replace in place if the key exists, else append. -/
def dictInsert (k : Chars) (v : α) : List (Chars × α) → List (Chars × α)
  | [] => [(k, v)]
  | (k2, v2) :: rest => if k2 = k then (k, v) :: rest else (k2, v2) :: dictInsert k v rest

def dictGet? (k : Chars) : List (Chars × α) → Option α
  | [] => none
  | (k2, v2) :: rest => if k2 = k then some v2 else dictGet? k rest

/-! ### Document splitter
(`ContextParser._split_into_sections` / `_split_into_subsections`)

Both loops have the same shape; `lineSplitAux` is that shape, instantiated
twice below.  `cur = []` models the falsy current section of Python (both `None`
and the empty normalized title behave identically in the source). -/

/-- Python `re.sub(r"^\d+\.\s*", "", s)`. -/
def stripSectionNumber (s : Chars) : Chars :=
  if (s.takeWhile Char.isDigit).isEmpty then s
  else
    match s.dropWhile Char.isDigit with
    | c :: r => if c = '.' then r.dropWhile isPySpace else s
    | [] => s

/-- Python `re.sub(r"^\d+\.\d+\s*", "", s)`. -/
def stripSubsectionNumber (s : Chars) : Chars :=
  if (s.takeWhile Char.isDigit).isEmpty then s
  else
    match s.dropWhile Char.isDigit with
    | c :: r =>
      if c = '.' then
        if (r.takeWhile Char.isDigit).isEmpty then s
        else (r.dropWhile Char.isDigit).dropWhile isPySpace
      else s
    | [] => s

def lineSplitAux (pfx : Chars) (norm : Chars → Chars) :
    List Chars → Chars → List Chars → List (Chars × Chars) → List (Chars × Chars)
  | [], cur, content, d =>
    if cur.isEmpty then d else dictInsert cur (joinNl content.reverse) d
  | line :: rest, cur, content, d =>
    if pfx.isPrefixOf line then
      let d2 := if cur.isEmpty then d else dictInsert cur (joinNl content.reverse) d
      lineSplitAux pfx norm rest (norm (pyStrip (line.drop pfx.length))) [] d2
    else if cur.isEmpty then lineSplitAux pfx norm rest cur content d
    else lineSplitAux pfx norm rest cur (line :: content) d

def split_into_sections (doc : Chars) : List (Chars × Chars) :=
  lineSplitAux (strChars "## ") stripSectionNumber (splitNl doc) [] [] []

def split_into_subsections (content : Chars) : List (Chars × Chars) :=
  lineSplitAux (strChars "### ") stripSubsectionNumber (splitNl content) [] [] []

/-- Variant of `lineSplitAux` that keeps every heading occurrence in
document order instead of overwriting duplicate keys; used only to state
what the dict-based splitter loses on duplicate titles. -/
def lineSplitAllAux (pfx : Chars) (norm : Chars → Chars) :
    List Chars → Chars → List Chars → List (Chars × Chars) → List (Chars × Chars)
  | [], cur, content, d =>
    if cur.isEmpty then d else d ++ [(cur, joinNl content.reverse)]
  | line :: rest, cur, content, d =>
    if pfx.isPrefixOf line then
      let d2 := if cur.isEmpty then d else d ++ [(cur, joinNl content.reverse)]
      lineSplitAllAux pfx norm rest (norm (pyStrip (line.drop pfx.length))) [] d2
    else if cur.isEmpty then lineSplitAllAux pfx norm rest cur content d
    else lineSplitAllAux pfx norm rest cur (line :: content) d

def split_sections_all (doc : Chars) : List (Chars × Chars) :=
  lineSplitAllAux (strChars "## ") stripSectionNumber (splitNl doc) [] [] []

def split_subsections_all (content : Chars) : List (Chars × Chars) :=
  lineSplitAllAux (strChars "### ") stripSubsectionNumber (splitNl content) [] [] []

/-- The value attached to the last occurrence of key `k` in an association
list (later entries shadow earlier ones). -/
def lastVal (k : Chars) : List (Chars × Chars) → Option Chars
  | [] => none
  | (k2, v) :: rest =>
    match lastVal k rest with
    | some v2 => some v2
    | none => if k2 = k then some v else none

/-! ### Rule extractor
(`ContextParser._extract_content_and_examples`, `_is_correct_example`,
`_extract_title`)

`re.split(r"```(\w+)?\n(.*?)```", content, flags=re.DOTALL)` is modelled by
a left-to-right scan: at each position an opening fence is three backticks,
an optional run of word characters, then a newline; the code group runs
non-greedily to the next three backticks.  Positions where the pattern
cannot complete are ordinary text, exactly as the regex engine advances. -/

def fence3 : Chars := strChars "```"

/-- Python regex `\w` (ASCII behaviour). -/
def isWordChar (c : Char) : Bool := c.isAlphanum || c = '_'

/-- Opening fence at the head of `s`: ``` then `(\w+)?` then a newline.
Returns the language group and the text after the newline. -/
def matchOpenFence (s : Chars) : Option (Chars × Chars) :=
  if fence3.isPrefixOf s then
    let rest := s.drop 3
    match rest.dropWhile isWordChar with
    | c :: r2 => if c = '\n' then some (rest.takeWhile isWordChar, r2) else none
    | [] => none
  else none

/-- Non-greedy search for the closing ```; returns the code group and the
text after the closing fence. -/
def findCloseFence : Chars → Option (Chars × Chars)
  | [] => none
  | c :: rest =>
    if fence3.isPrefixOf (c :: rest) then some ([], (c :: rest).drop 3)
    else
      match findCloseFence rest with
      | some (code, r) => some (c :: code, r)
      | none => none

def matchFence (s : Chars) : Option (Chars × Chars × Chars) :=
  match matchOpenFence s with
  | some (lang, after) =>
    match findCloseFence after with
    | some (code, rest) => some (lang, code, rest)
    | none => none
  | none => none

/-- Scan result: the text before the first fenced block, then for each block
its language group, code group, and the text that follows it.  This is the
`parts` list of the Python `re.split`, grouped in triples. -/
def scanFencesAux : Nat → Chars → Chars × List (Chars × Chars × Chars)
  | 0, s => (s, [])
  | fuel + 1, s =>
    match s with
    | [] => ([], [])
    | c :: rest =>
      match matchFence s with
      | some (lang, code, r2) =>
        let p := scanFencesAux fuel r2
        ([], (lang, code, p.1) :: p.2)
      | none =>
        let p := scanFencesAux fuel rest
        (c :: p.1, p.2)

def scanFences (s : Chars) : Chars × List (Chars × Chars × Chars) :=
  scanFencesAux s.length s

/-- Table `incorrect_indicators` from `_is_correct_example` (the fourth entry is
the word written with an apostrophe, U+0027). -/
def incorrect_indicators : List Chars :=
  [strChars "wrong", strChars "incorrect", strChars "bad", strChars "don\x27t",
   strChars "never", strChars "avoid", strChars "❌"]

def correct_indicators : List Chars :=
  [strChars "correct", strChars "right", strChars "good", strChars "do this", strChars "✅"]

/-- Python `" ".join(preceding_text.strip().split("\n")[-3:]).lower()`. -/
def lastText (preceding : Chars) : Chars :=
  pyLower (joinSep (strChars " ") (lastN 3 (splitNl (pyStrip preceding))))

def is_correct_example (preceding code : Chars) : Bool :=
  let lt := lastText preceding
  if incorrect_indicators.any (fun ind => pyContains ind lt) then false
  else if correct_indicators.any (fun ind => pyContains ind lt) then true
  else if pyContains (strChars "# WRONG") code || pyContains (strChars "# BAD") code
       || pyContains (strChars "# ❌") code then false
  else if pyContains (strChars "# CORRECT") code || pyContains (strChars "# GOOD") code
       || pyContains (strChars "# ✅") code then true
  else true

/-- Builds the `examples` list: the preceding text part of each block is the text
immediately before it (`text_parts[-1]` at that point in the Python loop). -/
def buildExamples : Chars → List (Chars × Chars × Chars) → List CodeExample
  | _, [] => []
  | prevText, (lang, code, t) :: rest =>
    let c := pyStrip code
    { code := c,
      language := if lang.isEmpty then strChars "text" else lang,
      is_correct := is_correct_example prevText c } :: buildExamples t rest

def extract_content_and_examples (content : Chars) : Chars × List CodeExample :=
  let p := scanFences content
  (p.1 ++ (p.2.map (fun b => b.2.2)).flatten, buildExamples p.1 p.2)

/-- Python `re.sub(r"^[-*]\s*", "", t)`. -/
def stripLeadingBullet (t : Chars) : Chars :=
  match t with
  | c :: rest => if c = '-' || c = '*' then rest.dropWhile isPySpace else t
  | [] => []

/-- Python `re.split(r"[.!?]\s+", text)`. -/
def splitSentencesAux : Nat → Chars → Chars → List Chars
  | 0, acc, s => [acc.reverse ++ s]
  | _ + 1, acc, [] => [acc.reverse]
  | fuel + 1, acc, c :: rest =>
    if (c = '.' || c = '!' || c = '?') &&
       (match rest with | r :: _ => isPySpace r | [] => false) then
      acc.reverse :: splitSentencesAux fuel [] (rest.dropWhile isPySpace)
    else splitSentencesAux fuel (c :: acc) rest

def splitSentences (t : Chars) : List Chars := splitSentencesAux t.length [] t

def extract_title (text : Chars) : Chars :=
  match splitSentences (stripLeadingBullet (pyStrip text)) with
  | title0 :: _ =>
    let title := pyStrip title0
    if title.length > 60 then title.take 57 ++ strChars "..." else title
  | [] => strChars "Rule"

/-! ### Classification tables
(`SECTION_PRIORITIES`, `SECTION_SCOPES`, `_get_priority`, `_get_scope`,
`_get_tags`) -/

def SECTION_PRIORITIES : List (Chars × Nat) :=
  [(strChars "Security", 100), (strChars "Pre-commit", 90),
   (strChars "Bash Standards", 70), (strChars "Python Standards", 70),
   (strChars "Design Principles", 60), (strChars "YAML", 50),
   (strChars "JSON", 50), (strChars "Documentation", 40)]

def SECTION_SCOPES : List (Chars × List Chars) :=
  [(strChars "Bash Standards", [strChars "*.sh", strChars "*.bash"]),
   (strChars "Python Standards", [strChars "*.py"]),
   (strChars "YAML", [strChars "*.yaml"]),
   (strChars "JSON", [strChars "*.json"])]

/-- The shared loop shape of `_get_priority` / `_get_scope`: first table key
that is a case-insensitive substring of the section title wins. -/
def lookupFirst (table : List (Chars × α)) (s : Chars) (dflt : α) : α :=
  match table with
  | [] => dflt
  | (k, v) :: rest => if pyContains (pyLower k) (pyLower s) then v else lookupFirst rest s dflt

def get_priority (s : Chars) : Nat := lookupFirst SECTION_PRIORITIES s 50

def get_scope (s : Chars) : List Chars := lookupFirst SECTION_SCOPES s [strChars "all"]

def TAG_MAP : List (Chars × List Chars) :=
  [(strChars "bash", [strChars "bash", strChars "shell", strChars "script"]),
   (strChars "python", [strChars "python"]),
   (strChars "security", [strChars "security", strChars "secret", strChars "credential"]),
   (strChars "yaml", [strChars "yaml"]),
   (strChars "json", [strChars "json"]),
   (strChars "documentation", [strChars "documentation", strChars "doc"])]

def get_tags (s : Chars) : List Chars :=
  (TAG_MAP.filter (fun tk => tk.2.any (fun kw => pyContains kw (pyLower s)))).map (fun tk => tk.1)

/-! ### Rule construction (`_create_rule`, `_parse_section`, `parse`) -/

/-- Function `_create_rule`; returns `none` when the prose content is empty after
code-block removal.  The Python `subsection if subsection else ...` treats an
empty subsection title as falsy, hence the `t.isEmpty` test. -/
def create_rule (sec : Chars) (subsec : Option Chars) (content : Chars)
    (priority : Nat) (scope : List Chars) (tags : List Chars) : Option Rule :=
  let te := extract_content_and_examples content
  if (pyStrip te.1).isEmpty then none
  else
    some
      { sectionTitle := sec, subsection := subsec,
        title :=
          match subsec with
          | some t => if t.isEmpty then extract_title te.1 else t
          | none => extract_title te.1,
        content := pyStrip te.1, examples := te.2,
        priority := priority, scope := scope, tags := tags }

def parse_section (sectionTitle content : Chars) : List Rule :=
  let priority := get_priority sectionTitle
  let scope := get_scope sectionTitle
  let tags := get_tags sectionTitle
  let subs := split_into_subsections content
  if subs.isEmpty then
    (create_rule sectionTitle none content priority scope tags).toList
  else
    (subs.map (fun sc => (create_rule sectionTitle (some sc.1) sc.2 priority scope tags).toList)).flatten

def parse (doc : Chars) : List Rule :=
  ((split_into_sections doc).map (fun sc => parse_section sc.1 sc.2)).flatten

/-- The prose of a body is non-empty after code-block removal; this is the
condition under which `_create_rule` actually constructs a `Rule`. -/
def proseNonempty (content : Chars) : Bool :=
  !(pyStrip (extract_content_and_examples content).1).isEmpty

/-! ### Validator (`validator.py`)

The validator accumulates `errors` and `warnings` while walking the file
map; `validate_all` returns `len(errors) == 0`.  An uncaught Python
exception (the `TypeError` raised by `"priority" in metadata` when the
frontmatter loads as `None`) is modelled with `Except`. -/

structure VState where
  errors : List Chars
  warnings : List Chars
deriving DecidableEq, Repr

def addErr (m : Chars) (st : VState) : VState := { st with errors := st.errors ++ [m] }

def addWarn (m : Chars) (st : VState) : VState := { st with warnings := st.warnings ++ [m] }

inductive PyErr where
  | typeError
deriving DecidableEq, Repr

/-- Result of loading a YAML document: the null document (Python `None`),
a mapping (modelled by its key list), or a plain scalar. -/
inductive YamlVal where
  | vnull
  | vmap (keys : List Chars)
  | vscalar (s : Chars)
deriving DecidableEq, Repr

/-- Modelled from the spec: the repository calls the external library
function `yaml.safe_load`, whose code is not part of this repository
("frontmatter must itself parse as structured key-value data").  Minimal
model of its documented behaviour on the shapes that occur here: a
whitespace-only document loads as the null document (Python `None`); a
document whose non-blank line starts with a reserved indicator (`@` or a
backtick) fails to parse (`none` models a raised `YAMLError`); a document
each of whose non-blank lines contains a colon loads as a mapping whose
keys are the stripped text before the first colon of each such line; any
other document loads as a plain string scalar. -/
def yamlSafeLoad (s : Chars) : Option YamlVal :=
  let ls := ((splitNl s).map pyStrip).filter (fun l => !l.isEmpty)
  if ls.isEmpty then some .vnull
  else if ls.any (fun l => l.head? = some '@' || l.head? = some (Char.ofNat 96)) then none
  else if ls.all (fun l => l.contains ':') then
    some (.vmap (ls.map (fun l => pyStrip (l.takeWhile (fun c => c ≠ ':')))))
  else some (.vscalar (pyStrip s))

/-- Python `key in metadata`: raises `TypeError` when `metadata` is `None`,
tests key membership on a dict, substring membership on a string. -/
def yamlContains (k : Chars) : YamlVal → Except PyErr Bool
  | .vnull => .error .typeError
  | .vmap keys => .ok (keys.any (fun k2 => k2 = k))
  | .vscalar s => .ok (pyContains k s)

/-- Python `re.findall(r"```", content)` count: non-overlapping occurrences. -/
def countFencesAux : Nat → Chars → Nat
  | 0, _ => 0
  | _ + 1, [] => 0
  | fuel + 1, c :: rest =>
    if fence3.isPrefixOf (c :: rest) then 1 + countFencesAux fuel ((c :: rest).drop 3)
    else countFencesAux fuel rest

def countFences (s : Chars) : Nat := countFencesAux s.length s

/-- One match of `^(#{1,6})\s+` (MULTILINE) on this line: a run of 1–6 `#`
followed by a whitespace character.  For every line but the last, the
newline that separated it from the next line satisfies `\s`, so a line
that is nothing but the `#` run also matches (`hasNl`). -/
def lineHeadingLevel (line : Chars) (hasNl : Bool) : Option Nat :=
  let r := (line.takeWhile (fun c => c = '#')).length
  if 1 ≤ r && r ≤ 6 then
    match line.drop r with
    | [] => if hasNl then some r else none
    | c :: _ => if isPySpace c then some r else none
  else none

def headingLevels : List Chars → List Nat
  | [] => []
  | [l] => (lineHeadingLevel l false).toList
  | l :: l2 :: ls => (lineHeadingLevel l true).toList ++ headingLevels (l2 :: ls)

/-- The heading-hierarchy loop of `_validate_markdown`: warn whenever a
level jumps by more than one. -/
def hierWarnAux (fp : Chars) : Nat → List Nat → VState → VState
  | _, [], st => st
  | prev, l :: ls, st =>
    hierWarnAux fp l ls
      (if prev + 1 < l then
        addWarn (fp ++ strChars ": Heading hierarchy skip (#" ++ strChars (toString prev)
          ++ strChars " -> #" ++ strChars (toString l) ++ strChars ")") st
      else st)

def validate_markdown (fp content : Chars) (st : VState) : VState :=
  let st1 :=
    if countFences content % 2 ≠ 0 then addErr (fp ++ strChars ": Unclosed code fence") st
    else st
  match headingLevels (splitNl content) with
  | [] => st1
  | l0 :: ls => hierWarnAux fp l0 ls st1

def validate_yaml (fp content : Chars) (st : VState) : VState :=
  match yamlSafeLoad content with
  | some _ => st
  | none => addErr (fp ++ strChars ": Invalid YAML syntax") st

/-- First occurrence of `sep` in `s`: text before it and text after it. -/
def findSep (sep : Chars) : Chars → Option (Chars × Chars)
  | [] => none
  | c :: rest =>
    if sep.isPrefixOf (c :: rest) then some ([], (c :: rest).drop sep.length)
    else
      match findSep sep rest with
      | some (pre, post) => some (c :: pre, post)
      | none => none

/-- Python `s.split(sep, 2)` for non-empty `sep`. -/
def pySplit2On (sep s : Chars) : List Chars :=
  match findSep sep s with
  | none => [s]
  | some (a, r) =>
    match findSep sep r with
    | none => [a, r]
    | some (b, r2) => [a, b, r2]

def validate_mdc (fp content : Chars) (st : VState) : Except PyErr VState :=
  if !(strChars "---").isPrefixOf content then
    .ok (addErr (fp ++ strChars ": Missing YAML frontmatter") st)
  else
    match pySplit2On (strChars "---") content with
    | _ :: fm :: md :: _ =>
      -- `len(parts) >= 3`: frontmatter is `parts[1]`, body is `parts[2]`
      match yamlSafeLoad fm with
      | none =>
        .ok (validate_markdown fp md (addErr (fp ++ strChars ": Invalid frontmatter YAML") st))
      | some v =>
        match yamlContains (strChars "priority") v with
        | .error e => .error e
        | .ok hasP =>
          match yamlContains (strChars "globs") v with
          | .error e => .error e
          | .ok hasG =>
            .ok (validate_markdown fp md
              (if hasG then
                (if hasP then st
                 else addWarn (fp ++ strChars ": Missing \x27priority\x27 in frontmatter") st)
               else
                addWarn (fp ++ strChars ": Missing \x27globs\x27 in frontmatter")
                  (if hasP then st
                   else addWarn (fp ++ strChars ": Missing \x27priority\x27 in frontmatter") st)))
    | _ =>
      -- `len(parts) < 3`
      .ok (addErr (fp ++ strChars ": Invalid frontmatter structure") st)

/-- The trailing-whitespace loop of `_validate_common` (1-based lines). -/
def trailingWsWarnAux (fp : Chars) : Nat → List Chars → VState → VState
  | _, [], st => st
  | i, l :: ls, st =>
    trailingWsWarnAux fp (i + 1) ls
      (if l.getLast? = some ' ' || l.getLast? = some '\t' then
        addWarn (fp ++ strChars ":" ++ strChars (toString i) ++ strChars ": Trailing whitespace") st
      else st)

/-- The long-line loop of `_validate_common`, toggling `in_code_block`. -/
def longLineWarnAux (fp : Chars) : Nat → Bool → List Chars → VState → VState
  | _, _, [], st => st
  | i, icb, l :: ls, st =>
    if fence3.isPrefixOf (pyStrip l) then longLineWarnAux fp (i + 1) (!icb) ls st
    else if !icb && l.length > 120 then
      longLineWarnAux fp (i + 1) icb ls
        (addWarn (fp ++ strChars ":" ++ strChars (toString i) ++ strChars ": Line too long ("
          ++ strChars (toString l.length) ++ strChars " chars)") st)
    else longLineWarnAux fp (i + 1) icb ls st

def validate_common (fp content : Chars) (st : VState) : VState :=
  let lines := splitNl content
  let st1 := trailingWsWarnAux fp 1 lines st
  let st2 :=
    if !content.isEmpty && content.getLast? ≠ some '\n' then
      addWarn (fp ++ strChars ": Missing final newline") st1
    else st1
  longLineWarnAux fp 1 false lines st2

/-- Python `pathlib.PurePath(fp).suffix`. -/
def path_suffix (fp : Chars) : Chars :=
  let name := (fp.reverse.takeWhile (fun c => c ≠ '/')).reverse
  let ext := name.reverse.takeWhile (fun c => c ≠ '.')
  if ext.length = name.length then []
  else if ext.isEmpty then []
  else if ext.length + 1 = name.length then []
  else '.' :: ext.reverse

def validate_file (fp content : Chars) (st : VState) : Except PyErr VState :=
  match
    (if path_suffix fp = strChars ".yaml" ∨ path_suffix fp = strChars ".yml" then
      .ok (validate_yaml fp content st)
    else if path_suffix fp = strChars ".mdc" then validate_mdc fp content st
    else if path_suffix fp = strChars ".md" then .ok (validate_markdown fp content st)
    else .ok st : Except PyErr VState)
  with
  | .error e => .error e
  | .ok st2 => .ok (validate_common fp content st2)

def validateFilesAux : List (Chars × Chars) → VState → Except PyErr VState
  | [], st => .ok st
  | (fp, c) :: rest, st =>
    match validate_file fp c st with
    | .error e => .error e
    | .ok st2 => validateFilesAux rest st2

/-- Method `Validator.validate_all`: the final state together with the returned
boolean `len(self.errors) == 0`; `.error` models an uncaught exception. -/
def validate_all (files : List (Chars × Chars)) : Except PyErr (VState × Bool) :=
  match validateFilesAux files ⟨[], []⟩ with
  | .error e => .error e
  | .ok st => .ok (st, st.errors.isEmpty)

/-! ### Generator merge (`SyncGenerator.sync`, step 2)

`all_files = {}` followed by `all_files.update(files)` once per transformer
in roster order (`Cursor`, `Claude`, `GitHub Copilot`, `Aider`). -/

/-- Python `d.update(new)`: insert every entry of `new`, in order. -/
def dictUpdate (d newd : List (Chars × α)) : List (Chars × α) :=
  newd.foldl (fun acc kv => dictInsert kv.1 kv.2 acc) d

def mergeAll (maps : List (List (Chars × α))) : List (Chars × α) :=
  maps.foldl dictUpdate []

/-! ### Imperative style transform (`BaseTransformer._make_imperative`)

Eight sequential `re.sub(r"\b<word>\b", repl, text, flags=re.IGNORECASE)`
passes over the text, in the order of the Python `replacements` dict. -/

def WORD_REPLACEMENTS : List (Chars × Chars) :=
  [(strChars "must", strChars "MUST"), (strChars "should", strChars "MUST"),
   (strChars "may", strChars "CAN"), (strChars "never", strChars "NEVER"),
   (strChars "always", strChars "ALWAYS"), (strChars "require", strChars "REQUIRE"),
   (strChars "do not", strChars "DO NOT"), (strChars "don\x27t", strChars "DO NOT")]

/-- Case-insensitive literal match of `w` against a prefix of the text. -/
def matchesCI : Chars → Chars → Bool
  | [], _ => true
  | _ :: _, [] => false
  | p :: ps, c :: cs => (p.toLower = c.toLower) && matchesCI ps cs

/-- Boundary `\b` after the matched word: end of text or a non-word character. -/
def nonWordHead : Chars → Bool
  | [] => true
  | c :: _ => !(isWordChar c)

/-- One `re.sub(r"\b w \b", repl, ·, IGNORECASE)` pass.  `prevWord` records
whether the previous original character was a word character (false at the
start of the text), which decides the leading `\b`; every word in the table
begins and ends with a word character. -/
def subWordAux (w repl : Chars) : Nat → Bool → Chars → Chars
  | 0, _, s => s
  | _ + 1, _, [] => []
  | fuel + 1, prevWord, c :: rest =>
    if !prevWord && matchesCI w (c :: rest) && nonWordHead ((c :: rest).drop w.length) then
      repl ++ subWordAux w repl fuel (isWordChar (((c :: rest).take w.length).getLastD c))
        ((c :: rest).drop w.length)
    else c :: subWordAux w repl fuel (isWordChar c) rest

def pySubWord (w repl s : Chars) : Chars := subWordAux w repl s.length false s

def make_imperative (s : Chars) : Chars :=
  WORD_REPLACEMENTS.foldl (fun t pr => pySubWord pr.1 pr.2 t) s

/-- Whether the text has any case-insensitive word-boundary occurrence of
`w`, with the same boundary conventions as `subWordAux`. -/
def hasWordOccurAux (w : Chars) : Bool → Chars → Bool
  | _, [] => false
  | prevWord, c :: rest =>
    (!prevWord && matchesCI w (c :: rest) && nonWordHead ((c :: rest).drop w.length))
      || hasWordOccurAux w (isWordChar c) rest

def hasWordOccur (w s : Chars) : Bool := hasWordOccurAux w false s

/-- The first sentence of `_extract_title`, before the length cap is
applied: strip, drop a leading bullet, take the first sentence, strip. -/
def rawTitle (text : Chars) : Chars :=
  match splitSentences (stripLeadingBullet (pyStrip text)) with
  | t :: _ => pyStrip t
  | [] => strChars "Rule"

/-! ## Theorems -/

/-! ### General helper lemmas -/

theorem pyContains_infix_iff (n : Chars) : ∀ h : Chars, pyContains n h = true ↔ n <:+: h := by
  intro h
  induction h with
  | nil =>
    simp [pyContains, List.isEmpty_iff, List.infix_nil]
  | cons c t ih =>
    simp only [pyContains, Bool.or_eq_true, List.isPrefixOf_iff_prefix, ih,
      List.infix_cons_iff]

theorem getLast?_drop_of_lt {α : Type} : ∀ (l : List α) (n : Nat), n < l.length →
    (l.drop n).getLast? = l.getLast? := by
  intro l
  induction l with
  | nil => intro n h; simp at h
  | cons c t ih =>
    intro n h
    match n with
    | 0 => simp
    | n + 1 =>
      have ht : n < t.length := by simpa using h
      have htne : t ≠ [] := by
        intro he; rw [he] at ht; simp at ht
      rw [List.drop_succ_cons, ih n ht]
      match t, htne with
      | d :: t2, _ => rw [List.getLast?_cons_cons]

theorem lastN_getLast? {α : Type} (n : Nat) (l : List α) (hn : 0 < n) (hl : l ≠ []) :
    (lastN n l).getLast? = l.getLast? := by
  have hlen : 0 < l.length := List.length_pos.mpr hl
  exact getLast?_drop_of_lt l (l.length - n) (by omega)

theorem suffix_joinSep_of_getLast? (sep : Chars) :
    ∀ (l : List Chars) (x : Chars), l.getLast? = some x → x <:+ joinSep sep l := by
  intro l
  induction l with
  | nil => intro x h; simp at h
  | cons a t ih =>
    intro x h
    match t with
    | [] =>
      simp at h
      subst h
      exact List.suffix_refl a
    | b :: t2 =>
      rw [List.getLast?_cons_cons] at h
      obtain ⟨u, hu⟩ := ih x h
      refine ⟨a ++ sep ++ u, ?_⟩
      show a ++ sep ++ u ++ x = joinSep sep (a :: b :: t2)
      simp only [joinSep, List.append_assoc, hu]

theorem suffix_map {α β : Type} (f : α → β) {l₁ l₂ : List α} (h : l₁ <:+ l₂) :
    l₁.map f <:+ l₂.map f := by
  obtain ⟨u, rfl⟩ := h
  exact ⟨u.map f, by simp⟩

/-! ### Claim C3 — validator totality

The claim says `validate_all` never raises, and that an `.mdc` file whose
frontmatter parses but has no recognized keys yields at most warnings.  The
code contradicts this: an empty frontmatter loads as the null document
(Python `None`), and `"priority" in metadata` then raises an uncaught
`TypeError`. -/

/-- C3: on the file map `{"rules.mdc": "---\n---\nbody\n"}` — frontmatter
present and YAML-parseable (empty document) — `validate_all` does not
return a boolean: it raises `TypeError` from `"priority" in None`. -/
theorem C3_validate_all_raises_on_empty_frontmatter :
    validate_all [(strChars "rules.mdc", strChars "---\n---\nbody\n")] =
      Except.error PyErr.typeError := by
  rfl

/-! ### Claim C2 — validator soundness on odd fence counts -/

/-- C2 counterexample: an `.mdc` file whose *content* has an odd number of
``` delimiters (the odd fence sits inside the YAML frontmatter), yet
`validate_all` accumulates no error and returns `true` — the fence check
only sees the post-frontmatter body. -/
theorem C2_counterexample :
    countFences (strChars "---\npriority: 50\nglobs: x```y\n---\nbody\n") % 2 = 1 ∧
    path_suffix (strChars "a.mdc") = strChars ".mdc" ∧
    validate_all [(strChars "a.mdc", strChars "---\npriority: 50\nglobs: x```y\n---\nbody\n")] =
      Except.ok (⟨[], []⟩, true) := by
  refine ⟨by decide, by decide, by rfl⟩

/-! ### Claim C1 — rules per section -/

/-- C1 counterexample: a document with exactly one section and zero
subsections whose body is a single fenced code block.  The claim demands
exactly one Rule; `_create_rule` suppresses it (prose is empty after
code-block removal) and `parse` returns no rule at all. -/
theorem C1_counterexample :
    (split_into_sections (strChars "## Alpha\n```py\nx = 1\n```")).length = 1 ∧
    split_into_subsections (strChars "```py\nx = 1\n```") = [] ∧
    parse (strChars "## Alpha\n```py\nx = 1\n```") = [] := by
  refine ⟨by decide, by decide, by decide⟩

/-! ### Claim C5 — title length bound -/

/-- C5 counterexample: a subsection whose normalized heading title is 70
characters long.  `_create_rule` stores the subsection title verbatim —
only titles derived from the prose pass through the 60-character
truncation — so the title of the constructed Rule has length 70. -/
theorem C5_counterexample :
    (parse (strChars "## Alpha\n### " ++ List.replicate 70 'a' ++ strChars "\nSome content\n")).map
        Rule.title = [List.replicate 70 'a'] ∧
    (List.replicate (70 : Nat) 'a').length = 70 := by
  refine ⟨by decide, by decide⟩

/-! ### Claim C9 — imperative substitutions -/

/-- C9 counterexample: `"we require tests"` contains no word-boundary
occurrence of any word the claim lists (must, should, never, always, may,
do not, and the apostrophe contraction), so by the claim it must be left unchanged — but
`_make_imperative` also substitutes `require` → `REQUIRE`. -/
theorem C9_counterexample :
    hasWordOccur (strChars "must") (strChars "we require tests") = false ∧
    hasWordOccur (strChars "should") (strChars "we require tests") = false ∧
    hasWordOccur (strChars "never") (strChars "we require tests") = false ∧
    hasWordOccur (strChars "always") (strChars "we require tests") = false ∧
    hasWordOccur (strChars "may") (strChars "we require tests") = false ∧
    hasWordOccur (strChars "do not") (strChars "we require tests") = false ∧
    hasWordOccur (strChars "don\x27t") (strChars "we require tests") = false ∧
    make_imperative (strChars "we require tests") = strChars "we REQUIRE tests" ∧
    strChars "we REQUIRE tests" ≠ strChars "we require tests" := by
  refine ⟨by decide, by decide, by decide, by decide, by decide, by decide, by decide,
    by decide, by decide⟩

/-! ### Claim C10 — duplicate headings: last body wins -/

theorem dictGet?_dictInsert {α : Type} (k k2 : Chars) (v : α) :
    ∀ d : List (Chars × α),
      dictGet? k (dictInsert k2 v d) = if k2 = k then some v else dictGet? k d := by
  intro d
  induction d with
  | nil => by_cases h : k2 = k <;> simp [dictInsert, dictGet?, h]
  | cons p rest ih =>
    obtain ⟨k3, v3⟩ := p
    by_cases h32 : k3 = k2
    · subst h32
      by_cases h3k : k3 = k <;> simp [dictInsert, dictGet?, h3k]
    · by_cases h3k : k3 = k
      · subst h3k
        have : k2 ≠ k3 := fun he => h32 he.symm
        simp [dictInsert, dictGet?, h32, this]
      · simp [dictInsert, dictGet?, h32, h3k, ih]

theorem lastVal_append_single (k k2 : Chars) (v : Chars) :
    ∀ d : List (Chars × Chars),
      lastVal k (d ++ [(k2, v)]) = if k2 = k then some v else lastVal k d := by
  intro d
  induction d with
  | nil => simp [lastVal]
  | cons p rest ih =>
    obtain ⟨k3, v3⟩ := p
    rw [List.cons_append]
    simp only [lastVal, ih]
    by_cases h2 : k2 = k
    · simp [h2]
    · simp [h2]

theorem lineSplitAux_vs_all (pfx : Chars) (norm : Chars → Chars) :
    ∀ (lines : List Chars) (cur : Chars) (content : List Chars)
      (d dAll : List (Chars × Chars)),
      (∀ k, dictGet? k d = lastVal k dAll) →
      ∀ k, dictGet? k (lineSplitAux pfx norm lines cur content d) =
        lastVal k (lineSplitAllAux pfx norm lines cur content dAll) := by
  intro lines
  induction lines with
  | nil =>
    intro cur content d dAll hinv k
    by_cases hc : cur.isEmpty
    · simpa [lineSplitAux, lineSplitAllAux, hc] using hinv k
    · simp only [lineSplitAux, lineSplitAllAux, hc, if_neg, Bool.not_eq_true,
        dictGet?_dictInsert, lastVal_append_single]
      by_cases he : cur = k <;> simp [he, hinv k]
  | cons line rest ih =>
    intro cur content d dAll hinv k
    by_cases hp : pfx.isPrefixOf line
    · have hstep : ∀ k2, dictGet? k2 (if cur.isEmpty then d
          else dictInsert cur (joinNl content.reverse) d) =
          lastVal k2 (if cur.isEmpty then dAll else dAll ++ [(cur, joinNl content.reverse)]) := by
        intro k2
        by_cases hc : cur.isEmpty
        · simpa [hc] using hinv k2
        · simp only [hc, if_neg, Bool.not_eq_true, dictGet?_dictInsert, lastVal_append_single]
          by_cases he : cur = k2 <;> simp [he, hinv k2]
      simp only [lineSplitAux, lineSplitAllAux, hp, if_pos]
      exact ih _ _ _ _ hstep k
    · by_cases hc : cur.isEmpty
      · simp only [lineSplitAux, lineSplitAllAux, hp, hc, if_neg, if_pos, Bool.not_eq_true]
        exact ih _ _ _ _ hinv k
      · simp only [lineSplitAux, lineSplitAllAux, hp, hc, if_neg, Bool.not_eq_true]
        exact ih _ _ _ _ hinv k

/-- C10: both splitters store bodies in a mapping keyed by normalized
title, so when two same-level headings normalize to the same title only
only the body of the last occurrence is retained (`lastVal` over the
occurrence-preserving splitter); concretely, a document with two `## A`
sections yields a single Rule carrying only the second body, and the first
body survives nowhere. -/
theorem C10_duplicate_headings_last_wins :
    (∀ doc k, dictGet? k (split_into_sections doc) = lastVal k (split_sections_all doc)) ∧
    (∀ content k,
      dictGet? k (split_into_subsections content) = lastVal k (split_subsections_all content)) ∧
    split_sections_all (strChars "## A\nfirst\n## A\nsecond\n") =
      [(strChars "A", strChars "first"), (strChars "A", strChars "second\n")] ∧
    parse (strChars "## A\nfirst\n## A\nsecond\n") =
      [{ sectionTitle := strChars "A", subsection := none, title := strChars "second",
         content := strChars "second", examples := [], priority := 50,
         scope := [strChars "all"], tags := [] }] := by
  refine ⟨?_, ?_, by decide, by decide⟩
  · intro doc k
    exact lineSplitAux_vs_all (strChars "## ") stripSectionNumber (splitNl doc) [] [] [] []
      (fun _ => rfl) k
  · intro content k
    exact lineSplitAux_vs_all (strChars "### ") stripSubsectionNumber (splitNl content) [] [] [] []
      (fun _ => rfl) k

/-! ### Claim C4 — File Map merge policy -/

theorem dictGet?_eq_none_of_not_mem {α : Type} (k : Chars) :
    ∀ n : List (Chars × α), k ∉ n.map Prod.fst → dictGet? k n = none := by
  intro n
  induction n with
  | nil => intro _; rfl
  | cons p rest ih =>
    intro h
    obtain ⟨k2, v2⟩ := p
    simp only [List.map_cons, List.mem_cons] at h
    push_neg at h
    have : k2 ≠ k := fun he => h.1 he.symm
    simp [dictGet?, this, ih h.2]

theorem dictGet?_dictUpdate {α : Type} (k : Chars) :
    ∀ (n d : List (Chars × α)), (n.map Prod.fst).Nodup →
      dictGet? k (dictUpdate d n) = (dictGet? k n).orElse (fun _ => dictGet? k d) := by
  intro n
  induction n with
  | nil => intro d _; simp [dictUpdate, dictGet?, Option.orElse]
  | cons p rest ih =>
    intro d hnd
    obtain ⟨k2, v2⟩ := p
    simp only [List.map_cons, List.nodup_cons] at hnd
    have hstep : dictUpdate d ((k2, v2) :: rest) = dictUpdate (dictInsert k2 v2 d) rest := rfl
    rw [hstep, ih _ hnd.2, dictGet?_dictInsert]
    by_cases he : k2 = k
    · subst he
      have : dictGet? k2 rest = none := dictGet?_eq_none_of_not_mem k2 rest hnd.1
      simp [dictGet?, this, Option.orElse]
    · simp [dictGet?, he, Option.orElse]

/-- C4: merging the four transformer file maps in roster order
(`all_files.update(files)` per transformer) gives last-writer-wins — the
merged entry for a path is the content from the last map in roster order
that carries that path, and paths carried by a single transformer appear
unchanged. -/
theorem C4_merge_last_writer_wins (m1 m2 m3 m4 : List (Chars × Chars)) (k : Chars)
    (h1 : (m1.map Prod.fst).Nodup) (h2 : (m2.map Prod.fst).Nodup)
    (h3 : (m3.map Prod.fst).Nodup) (h4 : (m4.map Prod.fst).Nodup) :
    dictGet? k (mergeAll [m1, m2, m3, m4]) =
      (dictGet? k m4).orElse (fun _ =>
        (dictGet? k m3).orElse (fun _ =>
          (dictGet? k m2).orElse (fun _ => dictGet? k m1))) := by
  have hm : mergeAll [m1, m2, m3, m4] =
      dictUpdate (dictUpdate (dictUpdate (dictUpdate [] m1) m2) m3) m4 := rfl
  rw [hm, dictGet?_dictUpdate k m4 _ h4, dictGet?_dictUpdate k m3 _ h3,
    dictGet?_dictUpdate k m2 _ h2, dictGet?_dictUpdate k m1 _ h1]
  have : dictGet? k ([] : List (Chars × Chars)) = none := rfl
  rw [this]
  cases dictGet? k m4 <;> cases dictGet? k m3 <;> cases dictGet? k m2 <;>
    cases dictGet? k m1 <;> simp [Option.orElse]

/-- Witness for C4: the Cursor and Aider maps collide on one path — the
merged map holds the Aider (later) content there — and each non-colliding
path keeps the content of its sole producer. -/
theorem C4_merge_witness :
    dictGet? (strChars "p.mdc")
        (mergeAll [[(strChars "p.mdc", strChars "cursor"), (strChars "CLAUDE.md", strChars "cl")],
          [], [], [(strChars "p.mdc", strChars "aider")]]) = some (strChars "aider") ∧
    dictGet? (strChars "CLAUDE.md")
        (mergeAll [[(strChars "p.mdc", strChars "cursor"), (strChars "CLAUDE.md", strChars "cl")],
          [], [], [(strChars "p.mdc", strChars "aider")]]) = some (strChars "cl") := by
  constructor
  · rw [C4_merge_last_writer_wins _ _ _ _ _ (by decide) (by decide) (by decide) (by decide)]
    rfl
  · rw [C4_merge_last_writer_wins _ _ _ _ _ (by decide) (by decide) (by decide) (by decide)]
    rfl

/-! ### Claim C7 — priority and scope classification -/

theorem lookupFirst_eq_find? {α : Type} (s : Chars) (dflt : α) :
    ∀ table : List (Chars × α),
      lookupFirst table s dflt =
        ((table.find? (fun kv => pyContains (pyLower kv.1) (pyLower s))).map Prod.snd).getD dflt := by
  intro table
  induction table with
  | nil => rfl
  | cons kv rest ih =>
    obtain ⟨k, v⟩ := kv
    by_cases h : pyContains (pyLower k) (pyLower s) = true
    · simp [lookupFirst, List.find?, h]
    · simp only [Bool.not_eq_true] at h
      simp [lookupFirst, List.find?, h, ih]

/-- C7: `_get_priority` / `_get_scope` return the value of the first table
entry whose keyword is a case-insensitive substring of the section title
(defaults 50 / `["all"]`); a title containing the Security keyword gets
priority 100, and `"Bash Standards"` gets scope `["*.sh", "*.bash"]`. -/
theorem C7_first_match_classification :
    (∀ s, get_priority s =
      ((SECTION_PRIORITIES.find? (fun kv => pyContains (pyLower kv.1) (pyLower s))).map
        Prod.snd).getD 50) ∧
    (∀ s, get_scope s =
      ((SECTION_SCOPES.find? (fun kv => pyContains (pyLower kv.1) (pyLower s))).map
        Prod.snd).getD [strChars "all"]) ∧
    get_scope (strChars "Bash Standards") = [strChars "*.sh", strChars "*.bash"] ∧
    get_priority (strChars "No Table Entry Matches This") = 50 ∧
    (∀ s, pyContains (strChars "security") (pyLower s) = true → get_priority s = 100) := by
  refine ⟨fun s => lookupFirst_eq_find? s 50 _, fun s => lookupFirst_eq_find? s _ _,
    by decide, by decide, ?_⟩
  intro s h
  have hc : pyContains (pyLower (strChars "Security")) (pyLower s) = true := by
    rw [show pyLower (strChars "Security") = strChars "security" from rfl]
    exact h
  simp [get_priority, SECTION_PRIORITIES, lookupFirst, hc]

/-- Witness for C7: a concrete title containing `"Security"`. -/
theorem C7_first_match_witness :
    get_priority (strChars "My Security Rules") = 100 :=
  C7_first_match_classification.2.2.2.2 (strChars "My Security Rules") (by decide)

/-! ### Claim C8 — ordinal stripping from titles -/

theorem takeWhile_append_head (p : Char → Bool) :
    ∀ (l r : Chars), (∀ c ∈ l, p c = true) → (∀ c, r.head? = some c → p c = false) →
      (l ++ r).takeWhile p = l ∧ (l ++ r).dropWhile p = r := by
  intro l
  induction l with
  | nil =>
    intro r _ hr
    match r with
    | [] => simp
    | c :: r2 =>
      have hc : p c = false := hr c rfl
      simp [List.takeWhile_cons, List.dropWhile_cons, hc]
  | cons c t ih =>
    intro r hl hr
    have hc : p c = true := hl c (List.mem_cons_self c t)
    have ht : ∀ c2 ∈ t, p c2 = true := fun c2 h2 => hl c2 (List.mem_cons_of_mem c h2)
    obtain ⟨ih1, ih2⟩ := ih r ht hr
    constructor
    · simp [List.takeWhile_cons, hc, ih1]
    · simp [List.dropWhile_cons, hc, ih2]

theorem head?_dot_not_digit (t : Chars) :
    ∀ c : Char, ('.' :: t).head? = some c → c.isDigit = false := by
  intro c hc
  simp only [List.head?_cons, Option.some.injEq] at hc
  subst hc
  decide

/-- C8, general section form: a leading `N.` ordinal (`N` any non-empty
digit run) followed by anything is stripped, together with the whitespace
run after it, and nothing else is removed. -/
theorem stripSectionNumber_strips (ds t : Chars) (hne : ds ≠ [])
    (hd : ∀ c ∈ ds, c.isDigit = true) :
    stripSectionNumber (ds ++ '.' :: t) = t.dropWhile isPySpace := by
  obtain ⟨h1, h2⟩ := takeWhile_append_head Char.isDigit ds ('.' :: t) hd (head?_dot_not_digit t)
  have hemp : ds.isEmpty = false := by
    cases ds with
    | nil => exact absurd rfl hne
    | cons a b => rfl
  simp only [stripSectionNumber, h1, h2, hemp, Bool.false_eq_true, if_false]
  simp

/-- C8, general subsection form: a leading `N.M` ordinal is stripped with
the following whitespace run, and nothing else. -/
theorem stripSubsectionNumber_strips (ds ms t : Chars) (hdne : ds ≠ [])
    (hd : ∀ c ∈ ds, c.isDigit = true) (hmne : ms ≠ []) (hm : ∀ c ∈ ms, c.isDigit = true)
    (ht : ∀ c, t.head? = some c → c.isDigit = false) :
    stripSubsectionNumber (ds ++ '.' :: (ms ++ t)) = t.dropWhile isPySpace := by
  obtain ⟨h1, h2⟩ :=
    takeWhile_append_head Char.isDigit ds ('.' :: (ms ++ t)) hd (head?_dot_not_digit _)
  obtain ⟨h3, h4⟩ := takeWhile_append_head Char.isDigit ms t hm ht
  have hemp : ds.isEmpty = false := by
    cases ds with
    | nil => exact absurd rfl hdne
    | cons a b => rfl
  have hemp2 : ms.isEmpty = false := by
    cases ms with
    | nil => exact absurd rfl hmne
    | cons a b => rfl
  simp only [stripSubsectionNumber, h1, h2, h3, h4, hemp, hemp2, Bool.false_eq_true, if_false]
  simp

/-- C8: exactly one leading numeric ordinal token (with its trailing
whitespace) is stripped from a heading title, and nothing else — stated
generally for `N.` on section titles and `N.M` on subsection titles, and
concretely for the `"## 3. Bash Standards"` example of the spec / `"### 3.1 File
Naming"` example, including that only the *first* ordinal token goes. -/
theorem C8_ordinal_stripping :
    (∀ ds t, ds ≠ [] → (∀ c ∈ ds, c.isDigit = true) →
      stripSectionNumber (ds ++ '.' :: t) = t.dropWhile isPySpace) ∧
    (∀ ds ms t, ds ≠ [] → (∀ c ∈ ds, c.isDigit = true) → ms ≠ [] →
      (∀ c ∈ ms, c.isDigit = true) → (∀ c, t.head? = some c → c.isDigit = false) →
      stripSubsectionNumber (ds ++ '.' :: (ms ++ t)) = t.dropWhile isPySpace) ∧
    stripSectionNumber (strChars "3. Bash Standards") = strChars "Bash Standards" ∧
    stripSubsectionNumber (strChars "3.1 File Naming") = strChars "File Naming" ∧
    stripSectionNumber (strChars "3. 4. Foo") = strChars "4. Foo" ∧
    split_into_sections (strChars "## 3. Bash Standards\n### 3.1 File Naming\nSome content\n") =
      [(strChars "Bash Standards", strChars "### 3.1 File Naming\nSome content\n")] ∧
    split_into_subsections (strChars "### 3.1 File Naming\nSome content\n") =
      [(strChars "File Naming", strChars "Some content\n")] := by
  exact ⟨stripSectionNumber_strips, stripSubsectionNumber_strips, by decide, by decide,
    by decide, by decide, by decide⟩

/-- Witness for C8: the general parts applied at the ordinals of the spec example. -/
theorem C8_ordinal_witness :
    stripSectionNumber (strChars "3" ++ '.' :: strChars " Bash Standards") =
      (strChars " Bash Standards").dropWhile isPySpace ∧
    stripSubsectionNumber (strChars "3" ++ '.' :: (strChars "1" ++ strChars " File Naming")) =
      (strChars " File Naming").dropWhile isPySpace := by
  constructor
  · exact C8_ordinal_stripping.1 (strChars "3") (strChars " Bash Standards") (by decide)
      (by decide)
  · exact C8_ordinal_stripping.2.1 (strChars "3") (strChars "1") (strChars " File Naming")
      (by decide) (by decide) (by decide) (by decide) (by decide)

/-! ### Claim C5 (amended) — which titles are truncated -/

theorem extract_title_eq (text : Chars) :
    extract_title text =
      if 60 < (rawTitle text).length then (rawTitle text).take 57 ++ strChars "..."
      else rawTitle text := by
  unfold extract_title rawTitle
  cases h : splitSentences (stripLeadingBullet (pyStrip text)) with
  | nil => rw [if_neg (by decide)]
  | cons t0 rest => rfl

theorem extract_title_length_le (text : Chars) : (extract_title text).length ≤ 60 := by
  rw [extract_title_eq]
  by_cases h : 60 < (rawTitle text).length
  · have h3 : (strChars "...").length = 3 := rfl
    rw [if_pos h, List.length_append, List.length_take, h3]
    omega
  · rw [if_neg h]
    omega

theorem create_rule_some_fields {sec c : Chars} {p : Nat} {sc tg : List Chars} {r : Rule}
    {sub : Option Chars} (h : create_rule sec sub c p sc tg = some r) :
    r.subsection = sub ∧
    r.title = sub.elim (extract_title (extract_content_and_examples c).1)
      (fun t => if t.isEmpty then extract_title (extract_content_and_examples c).1 else t) := by
  unfold create_rule at h
  by_cases he : (pyStrip (extract_content_and_examples c).1).isEmpty
  · rw [if_pos he] at h
    exact absurd h (by simp)
  · rw [if_neg he] at h
    simp only [Option.some.injEq] at h
    subst h
    refine ⟨rfl, ?_⟩
    cases sub <;> rfl

theorem mem_parse_section (t c : Chars) (r : Rule) (hr : r ∈ parse_section t c) :
    (split_into_subsections c).isEmpty = true ∧
      create_rule t none c (get_priority t) (get_scope t) (get_tags t) = some r ∨
    ∃ sc2 ∈ split_into_subsections c,
      create_rule t (some sc2.1) sc2.2 (get_priority t) (get_scope t) (get_tags t) = some r := by
  unfold parse_section at hr
  by_cases hsub : (split_into_subsections c).isEmpty
  · rw [if_pos hsub] at hr
    left
    refine ⟨hsub, ?_⟩
    cases hcr : create_rule t none c (get_priority t) (get_scope t) (get_tags t) with
    | none => rw [hcr] at hr; simp [Option.toList] at hr
    | some r2 => rw [hcr] at hr; simp [Option.toList] at hr; rw [hr]
  · rw [if_neg hsub] at hr
    right
    rw [List.mem_flatten] at hr
    obtain ⟨l2, hl2, hrl2⟩ := hr
    rw [List.mem_map] at hl2
    obtain ⟨sc2, hsc2, rfl⟩ := hl2
    refine ⟨sc2, hsc2, ?_⟩
    cases hcr : create_rule t (some sc2.1) sc2.2 (get_priority t) (get_scope t) (get_tags t) with
    | none => rw [hcr] at hrl2; simp [Option.toList] at hrl2
    | some r2 => rw [hcr] at hrl2; simp [Option.toList] at hrl2; rw [hrl2]

theorem mem_parse (doc : Chars) (r : Rule) (hr : r ∈ parse doc) :
    ∃ sc ∈ split_into_sections doc, r ∈ parse_section sc.1 sc.2 := by
  unfold parse at hr
  rw [List.mem_flatten] at hr
  obtain ⟨l2, hl2, hrl2⟩ := hr
  rw [List.mem_map] at hl2
  obtain ⟨sc, hsc, rfl⟩ := hl2
  exact ⟨sc, hsc, hrl2⟩

/-- C5 (amended): only titles derived from the prose (Rules without a
truthy subsection title) pass through the 60-character cap: every parsed
Rule with `subsection = none` has a title of at most 60 characters, and
whenever the derived first-sentence title exceeds 60 characters the stored
title is its first 57 characters plus `"..."`, of length exactly 60.
Subsection-derived titles are stored verbatim (see the counterexample). -/
theorem C5_amended_title_truncation :
    (∀ doc r, r ∈ parse doc → r.subsection = none → r.title.length ≤ 60) ∧
    (∀ text, 60 < (rawTitle text).length →
      extract_title text = (rawTitle text).take 57 ++ strChars "..." ∧
      (extract_title text).length = 60) := by
  constructor
  · intro doc r hr hs
    obtain ⟨sc, _, hps⟩ := mem_parse doc r hr
    rcases mem_parse_section sc.1 sc.2 r hps with ⟨_, hcr⟩ | ⟨sc2, _, hcr⟩
    · obtain ⟨_, hti⟩ := create_rule_some_fields hcr
      simp only [Option.elim] at hti
      rw [hti]
      exact extract_title_length_le _
    · obtain ⟨hsub, _⟩ := create_rule_some_fields hcr
      rw [hs] at hsub
      exact absurd hsub.symm (by simp)
  · intro text h
    have heq := extract_title_eq text
    rw [if_pos h] at heq
    refine ⟨heq, ?_⟩
    rw [heq, List.length_append, List.length_take]
    have h3 : (strChars "...").length = 3 := rfl
    rw [h3]
    omega

/-- Witness for C5 (amended): a parsed prose-titled rule obeys the bound,
and a 70-character first sentence is cut to exactly 60. -/
theorem C5_amended_witness :
    ({ sectionTitle := strChars "Alpha", subsection := none,
       title := strChars "Use spaces not tabs", content := strChars "Use spaces not tabs",
       examples := [], priority := 50, scope := [strChars "all"],
       tags := [] } : Rule).title.length ≤ 60 ∧
    (extract_title (List.replicate 70 'a')).length = 60 := by
  constructor
  · exact C5_amended_title_truncation.1 (strChars "## Alpha\nUse spaces not tabs\n") _
      (by decide) rfl
  · exact (C5_amended_title_truncation.2 (List.replicate 70 'a') (by decide)).2

/-! ### Claim C6 — code-example classification priority -/

theorem lastText_contains_wrong (p : Chars)
    (h : (splitNl (pyStrip p)).getLast? = some (strChars "❌ WRONG:")) :
    pyContains (strChars "wrong") (lastText p) = true := by
  have hne : splitNl (pyStrip p) ≠ [] := by
    intro he
    rw [he] at h
    simp at h
  have h1 : (lastN 3 (splitNl (pyStrip p))).getLast? = some (strChars "❌ WRONG:") := by
    rw [lastN_getLast? 3 _ (by omega) hne]
    exact h
  have h2 : strChars "❌ WRONG:" <:+ joinSep (strChars " ") (lastN 3 (splitNl (pyStrip p))) :=
    suffix_joinSep_of_getLast? _ _ _ h1
  have h3 : pyLower (strChars "❌ WRONG:") <:+
      pyLower (joinSep (strChars " ") (lastN 3 (splitNl (pyStrip p)))) :=
    suffix_map Char.toLower h2
  have h4 : strChars "wrong" <:+: pyLower (strChars "❌ WRONG:") := by
    rw [← pyContains_infix_iff]
    decide
  rw [pyContains_infix_iff]
  exact h4.trans h3.isInfix

/-- C6: the classification order of `_is_correct_example` — a negative
indicator in the last three lines of the immediately preceding prose
forces `false`; failing that, a positive indicator forces `true`; failing
both, the inline code markers decide (negative before positive); with no
indicator at all the default is `true`.  A block whose preceding prose
ends in the line `"❌ WRONG:"` is classified `false` whatever the code. -/
theorem C6_classification_priority :
    ∀ preceding code,
      (incorrect_indicators.any (fun i => pyContains i (lastText preceding)) = true →
        is_correct_example preceding code = false) ∧
      (incorrect_indicators.any (fun i => pyContains i (lastText preceding)) = false →
        correct_indicators.any (fun i => pyContains i (lastText preceding)) = true →
        is_correct_example preceding code = true) ∧
      (incorrect_indicators.any (fun i => pyContains i (lastText preceding)) = false →
        correct_indicators.any (fun i => pyContains i (lastText preceding)) = false →
        (pyContains (strChars "# WRONG") code || pyContains (strChars "# BAD") code
          || pyContains (strChars "# ❌") code) = true →
        is_correct_example preceding code = false) ∧
      (incorrect_indicators.any (fun i => pyContains i (lastText preceding)) = false →
        correct_indicators.any (fun i => pyContains i (lastText preceding)) = false →
        (pyContains (strChars "# WRONG") code || pyContains (strChars "# BAD") code
          || pyContains (strChars "# ❌") code) = false →
        (pyContains (strChars "# CORRECT") code || pyContains (strChars "# GOOD") code
          || pyContains (strChars "# ✅") code) = true →
        is_correct_example preceding code = true) ∧
      (incorrect_indicators.any (fun i => pyContains i (lastText preceding)) = false →
        correct_indicators.any (fun i => pyContains i (lastText preceding)) = false →
        (pyContains (strChars "# WRONG") code || pyContains (strChars "# BAD") code
          || pyContains (strChars "# ❌") code) = false →
        (pyContains (strChars "# CORRECT") code || pyContains (strChars "# GOOD") code
          || pyContains (strChars "# ✅") code) = false →
        is_correct_example preceding code = true) ∧
      ((splitNl (pyStrip preceding)).getLast? = some (strChars "❌ WRONG:") →
        is_correct_example preceding code = false) := by
  intro p c
  refine ⟨?_, ?_, ?_, ?_, ?_, ?_⟩
  · intro h1
    simp [is_correct_example, h1]
  · intro h1 h2
    simp [is_correct_example, h1, h2]
  · intro h1 h2 h3
    simp [is_correct_example, h1, h2, h3]
  · intro h1 h2 h3 h4
    simp [is_correct_example, h1, h2, h3, h4]
  · intro h1 h2 h3 h4
    simp [is_correct_example, h1, h2, h3, h4]
  · intro h
    have hw := lastText_contains_wrong p h
    have hany : incorrect_indicators.any (fun i => pyContains i (lastText p)) = true := by
      simp [incorrect_indicators, hw]
    simp [is_correct_example, hany]

/-- Witness for C6: a block preceded by `"❌ WRONG:"` classifies `false`;
one preceded by `"✅ Correct:"` classifies `true`; one with no indicators
anywhere defaults to `true`. -/
theorem C6_classification_witness :
    is_correct_example (strChars "setup text\n❌ WRONG:") (strChars "x = 1") = false ∧
    is_correct_example (strChars "✅ Correct:") (strChars "x = 1") = true ∧
    is_correct_example (strChars "plain prose") (strChars "x = 1") = true := by
  refine ⟨(C6_classification_priority _ _).2.2.2.2.2 (by decide),
    (C6_classification_priority _ _).2.1 (by decide) (by decide),
    (C6_classification_priority _ _).2.2.2.2.1 (by decide) (by decide) (by decide) (by decide)⟩

/-! ### Claim C1 (amended) — rules per section, with suppression -/

theorem create_rule_isSome (sec : Chars) (sub : Option Chars) (c : Chars) (p : Nat)
    (sc tg : List Chars) :
    (create_rule sec sub c p sc tg).isSome = proseNonempty c := by
  unfold create_rule proseNonempty
  by_cases he : (pyStrip (extract_content_and_examples c).1).isEmpty <;> simp [he]

theorem length_flatten_toList {α β : Type} (f : α → Option β) :
    ∀ l : List α,
      ((l.map (fun x => (f x).toList)).flatten).length = l.countP (fun x => (f x).isSome) := by
  intro l
  induction l with
  | nil => rfl
  | cons a t ih =>
    simp only [List.map_cons, List.flatten_cons, List.length_append, ih, List.countP_cons]
    cases h : f a <;> simp [h, Nat.add_comm]

/-- C1 (amended): a section with zero subsections yields one Rule when its
prose content is non-empty after code-block removal and zero Rules
otherwise; a section with subsections yields exactly one Rule per
subsection whose prose is non-empty (so at most N for N subsections).
`_create_rule` returns nothing exactly when the stripped prose is empty. -/
theorem C1_amended_rule_counts :
    (∀ t c, (parse_section t c).length =
      if (split_into_subsections c).isEmpty = true then
        (if proseNonempty c = true then 1 else 0)
      else (split_into_subsections c).countP (fun sc => proseNonempty sc.2)) ∧
    (∀ sec sub c p sc tg, create_rule sec sub c p sc tg = none ↔
      pyStrip (extract_content_and_examples c).1 = []) := by
  constructor
  · intro t c
    simp only [parse_section]
    by_cases hsub : (split_into_subsections c).isEmpty
    · rw [if_pos hsub, if_pos hsub]
      have his := create_rule_isSome t none c (get_priority t) (get_scope t) (get_tags t)
      cases hcr : create_rule t none c (get_priority t) (get_scope t) (get_tags t) with
      | none =>
        rw [hcr] at his
        rw [← his]
        simp
      | some r =>
        rw [hcr] at his
        rw [← his]
        simp
    · rw [if_neg hsub, if_neg hsub]
      rw [length_flatten_toList
        (fun sc : Chars × Chars =>
          create_rule t (some sc.1) sc.2 (get_priority t) (get_scope t) (get_tags t))]
      apply List.countP_congr
      intro sc2 _
      rw [create_rule_isSome t (some sc2.1) sc2.2 (get_priority t) (get_scope t) (get_tags t)]
  · intro sec sub c p sc tg
    unfold create_rule
    by_cases he : (pyStrip (extract_content_and_examples c).1).isEmpty
    · rw [if_pos he]
      rw [List.isEmpty_iff] at he
      simp [he]
    · rw [if_neg he]
      rw [List.isEmpty_iff] at he
      simp [he]

/-! ### Claim C9 (amended) — imperative word substitution -/

theorem subWordAux_id_of_no_occur (w repl : Chars) :
    ∀ (s : Chars) (fuel : Nat) (prev : Bool),
      hasWordOccurAux w prev s = false → subWordAux w repl fuel prev s = s := by
  intro s
  induction s with
  | nil =>
    intro fuel prev _
    cases fuel <;> rfl
  | cons c rest ih =>
    intro fuel prev h
    simp only [hasWordOccurAux, Bool.or_eq_false_iff] at h
    cases fuel with
    | zero => rfl
    | succ fuel2 =>
      simp only [subWordAux, h.1, Bool.false_eq_true, if_false]
      rw [ih fuel2 (isWordChar c) h.2]

theorem foldl_subWord_id :
    ∀ (l : List (Chars × Chars)) (s : Chars),
      (∀ pr ∈ l, hasWordOccur pr.1 s = false) →
      l.foldl (fun t pr => pySubWord pr.1 pr.2 t) s = s := by
  intro l
  induction l with
  | nil => intro s _; rfl
  | cons pr rest ih =>
    intro s h
    have h1 : pySubWord pr.1 pr.2 s = s :=
      subWordAux_id_of_no_occur pr.1 pr.2 s s.length false
        (h pr (List.mem_cons_self pr rest))
    rw [List.foldl_cons, h1]
    exact ih s (fun pr2 h2 => h pr2 (List.mem_cons_of_mem pr h2))

/-- C9 (amended): `_make_imperative` performs case-insensitive
word-boundary replacement for the eight table entries — must→MUST,
should→MUST, may→CAN, never→NEVER, always→ALWAYS, require→REQUIRE,
"do not"→"DO NOT" and the apostrophe contraction →"DO NOT" — and leaves
any text with no word-boundary occurrence of any of the eight patterns
unchanged (word-internal matches such as "mustard"/"dismay" are not
replaced). -/
theorem C9_amended_imperative :
    (∀ s, (∀ pr ∈ WORD_REPLACEMENTS, hasWordOccur pr.1 s = false) →
      make_imperative s = s) ∧
    make_imperative (strChars "you must test") = strChars "you MUST test" ∧
    make_imperative (strChars "this Should work") = strChars "this MUST work" ∧
    make_imperative (strChars "Never say never") = strChars "NEVER say NEVER" ∧
    make_imperative (strChars "always check") = strChars "ALWAYS check" ∧
    make_imperative (strChars "you may go") = strChars "you CAN go" ∧
    make_imperative (strChars "Do not stop") = strChars "DO NOT stop" ∧
    make_imperative (strChars "don\x27t stop") = strChars "DO NOT stop" ∧
    make_imperative (strChars "we require tests") = strChars "we REQUIRE tests" ∧
    make_imperative (strChars "mustard and dismay") = strChars "mustard and dismay" := by
  refine ⟨fun s h => foldl_subWord_id WORD_REPLACEMENTS s h, by decide, by decide, by decide,
    by decide, by decide, by decide, by decide, by decide, by decide⟩

/-- Witness for C9 (amended): a sentence with none of the eight patterns
is left untouched. -/
theorem C9_amended_witness :
    make_imperative (strChars "keep calm and carry on") = strChars "keep calm and carry on" :=
  C9_amended_imperative.1 (strChars "keep calm and carry on") (by decide)

/-! ### Claim C2 (amended) — validator soundness -/

theorem addWarn_errors (m : Chars) (st : VState) : (addWarn m st).errors = st.errors := rfl

theorem addErr_errors (m : Chars) (st : VState) : (addErr m st).errors = st.errors ++ [m] := rfl

theorem hierWarnAux_errors (fp : Chars) :
    ∀ (ls : List Nat) (p : Nat) (st : VState), (hierWarnAux fp p ls st).errors = st.errors := by
  intro ls
  induction ls with
  | nil => intro p st; rfl
  | cons l ls2 ih =>
    intro p st
    show (hierWarnAux fp l ls2 _).errors = st.errors
    rw [ih]
    by_cases h : p + 1 < l <;> simp [h, addWarn_errors]

theorem validate_markdown_errors (fp c : Chars) (st : VState) :
    (validate_markdown fp c st).errors =
      st.errors ++
        (if countFences c % 2 ≠ 0 then [fp ++ strChars ": Unclosed code fence"] else []) := by
  unfold validate_markdown
  cases headingLevels (splitNl c) with
  | nil =>
    by_cases h : countFences c % 2 ≠ 0 <;> simp [h, addErr_errors]
  | cons l0 ls =>
    rw [hierWarnAux_errors]
    by_cases h : countFences c % 2 ≠ 0 <;> simp [h, addErr_errors]

theorem trailingWsWarnAux_errors (fp : Chars) :
    ∀ (ls : List Chars) (i : Nat) (st : VState),
      (trailingWsWarnAux fp i ls st).errors = st.errors := by
  intro ls
  induction ls with
  | nil => intro i st; rfl
  | cons l ls2 ih =>
    intro i st
    show (trailingWsWarnAux fp (i + 1) ls2 _).errors = st.errors
    rw [ih]
    by_cases h : (l.getLast? = some ' ' || l.getLast? = some '\t') = true <;>
      simp [h, addWarn_errors]

theorem longLineWarnAux_errors (fp : Chars) :
    ∀ (ls : List Chars) (i : Nat) (icb : Bool) (st : VState),
      (longLineWarnAux fp i icb ls st).errors = st.errors := by
  intro ls
  induction ls with
  | nil => intro i icb st; rfl
  | cons l ls2 ih =>
    intro i icb st
    unfold longLineWarnAux
    by_cases h1 : fence3.isPrefixOf (pyStrip l) = true
    · simp only [h1, if_pos]
      rw [ih]
    · simp only [h1, Bool.false_eq_true, if_false]
      by_cases h2 : (!icb && decide (l.length > 120)) = true
      · simp only [h2, if_pos]
        rw [ih, addWarn_errors]
      · simp only [h2, Bool.false_eq_true, if_false]
        rw [ih]

theorem validate_common_errors (fp c : Chars) (st : VState) :
    (validate_common fp c st).errors = st.errors := by
  unfold validate_common
  rw [longLineWarnAux_errors]
  split
  · rw [addWarn_errors, trailingWsWarnAux_errors]
  · rw [trailingWsWarnAux_errors]

theorem validate_yaml_errors (fp c : Chars) (st : VState) :
    ∃ δ, (validate_yaml fp c st).errors = st.errors ++ δ := by
  unfold validate_yaml
  cases yamlSafeLoad c with
  | none => exact ⟨_, addErr_errors _ _⟩
  | some v => exact ⟨[], by simp⟩

/-- Dispatch: on an `.md` path, `_validate_file` runs Markdown validation
on the whole content and then the common checks. -/
theorem validate_file_md (fp c : Chars) (st : VState)
    (hsfx : path_suffix fp = strChars ".md") :
    validate_file fp c st = .ok (validate_common fp c (validate_markdown fp c st)) := by
  unfold validate_file
  rw [hsfx, if_neg (by decide), if_neg (by decide), if_pos rfl]

/-- Dispatch: on an `.mdc` path, `_validate_file` runs the frontmatter
validation and then the common checks. -/
theorem validate_file_mdc (fp c : Chars) (st : VState)
    (hsfx : path_suffix fp = strChars ".mdc") :
    validate_file fp c st =
      match validate_mdc fp c st with
      | .error e => .error e
      | .ok st2 => .ok (validate_common fp c st2) := by
  unfold validate_file
  rw [hsfx, if_neg (by decide), if_pos rfl]

/-- The two missing-key checks only ever add warnings. -/
theorem warnIf_errors (m1 m2 : Chars) (st : VState) (hasP hasG : Bool) :
    (if hasG then (if hasP then st else addWarn m1 st)
     else addWarn m2 (if hasP then st else addWarn m1 st)).errors = st.errors := by
  cases hasP <;> cases hasG <;> simp [addWarn_errors]

theorem validate_mdc_ok_errors (fp c : Chars) (st st' : VState)
    (h : validate_mdc fp c st = .ok st') : ∃ δ, st'.errors = st.errors ++ δ := by
  unfold validate_mdc at h
  split at h
  · simp only [Except.ok.injEq] at h
    subst h
    exact ⟨_, addErr_errors _ _⟩
  · split at h
    · split at h
      · -- yamlSafeLoad fails: error appended, markdown still validated
        simp only [Except.ok.injEq] at h
        subst h
        rw [validate_markdown_errors, addErr_errors, List.append_assoc]
        exact ⟨_, rfl⟩
      · -- yamlSafeLoad succeeds: membership checks, then markdown
        split at h
        · exact absurd h (by simp)
        · split at h
          · exact absurd h (by simp)
          · simp only [Except.ok.injEq] at h
            subst h
            rw [validate_markdown_errors, warnIf_errors]
            exact ⟨_, rfl⟩
    · simp only [Except.ok.injEq] at h
      subst h
      exact ⟨_, addErr_errors _ _⟩

theorem validate_file_ok_errors (fp c : Chars) (st st' : VState)
    (h : validate_file fp c st = .ok st') : ∃ δ, st'.errors = st.errors ++ δ := by
  unfold validate_file at h
  split at h
  · exact absurd h (by simp)
  · rename_i st2 heq
    simp only [Except.ok.injEq] at h
    subst h
    rw [validate_common_errors]
    split at heq
    · simp only [Except.ok.injEq] at heq
      subst heq
      exact validate_yaml_errors fp c st
    · split at heq
      · exact validate_mdc_ok_errors fp c st st2 heq
      · split at heq
        · simp only [Except.ok.injEq] at heq
          subst heq
          exact ⟨_, validate_markdown_errors fp c st⟩
        · simp only [Except.ok.injEq] at heq
          subst heq
          exact ⟨[], by simp⟩

theorem validateFilesAux_cons (fp c : Chars) (rest : List (Chars × Chars)) (st : VState) :
    validateFilesAux ((fp, c) :: rest) st =
      match validate_file fp c st with
      | .error e => .error e
      | .ok st2 => validateFilesAux rest st2 := rfl

theorem validateFilesAux_cons_ok {fp c : Chars} {st st2 : VState}
    (rest : List (Chars × Chars)) (h : validate_file fp c st = .ok st2) :
    validateFilesAux ((fp, c) :: rest) st = validateFilesAux rest st2 := by
  rw [validateFilesAux_cons, h]

theorem validateFilesAux_cons_err {fp c : Chars} {st : VState} {e : PyErr}
    (rest : List (Chars × Chars)) (h : validate_file fp c st = .error e) :
    validateFilesAux ((fp, c) :: rest) st = .error e := by
  rw [validateFilesAux_cons, h]

theorem validateFilesAux_ok_errors :
    ∀ (files : List (Chars × Chars)) (st st' : VState),
      validateFilesAux files st = .ok st' → ∃ δ, st'.errors = st.errors ++ δ := by
  intro files
  induction files with
  | nil =>
    intro st st' h
    simp only [validateFilesAux, Except.ok.injEq] at h
    subst h
    exact ⟨[], by simp⟩
  | cons p rest ih =>
    intro st st' h
    obtain ⟨fp, c⟩ := p
    cases hvf : validate_file fp c st with
    | error e => rw [validateFilesAux_cons_err rest hvf] at h; exact absurd h (by simp)
    | ok st2 =>
      rw [validateFilesAux_cons_ok rest hvf] at h
      obtain ⟨δ1, h1⟩ := validate_file_ok_errors fp c st st2 hvf
      obtain ⟨δ2, h2⟩ := ih st2 st' h
      exact ⟨δ1 ++ δ2, by rw [h2, h1, List.append_assoc]⟩

theorem validateFilesAux_append_ok :
    ∀ (l1 l2 : List (Chars × Chars)) (st st1 : VState),
      validateFilesAux l1 st = .ok st1 →
      validateFilesAux (l1 ++ l2) st = validateFilesAux l2 st1 := by
  intro l1
  induction l1 with
  | nil =>
    intro l2 st st1 h
    simp only [validateFilesAux, Except.ok.injEq] at h
    subst h
    rfl
  | cons p rest ih =>
    intro l2 st st1 h
    obtain ⟨fp, c⟩ := p
    rw [List.cons_append]
    cases hvf : validate_file fp c st with
    | error e =>
      rw [validateFilesAux_cons_err rest hvf] at h
      exact absurd h (by simp)
    | ok st2 =>
      rw [validateFilesAux_cons_ok rest hvf] at h
      rw [validateFilesAux_cons_ok (rest ++ l2) hvf]
      exact ih l2 st2 st1 h

theorem validateFilesAux_append_err :
    ∀ (l1 l2 : List (Chars × Chars)) (st : VState) (e : PyErr),
      validateFilesAux l1 st = .error e →
      validateFilesAux (l1 ++ l2) st = .error e := by
  intro l1
  induction l1 with
  | nil =>
    intro l2 st e h
    exact absurd h (by simp [validateFilesAux])
  | cons p rest ih =>
    intro l2 st e h
    obtain ⟨fp, c⟩ := p
    rw [List.cons_append]
    cases hvf : validate_file fp c st with
    | error e2 =>
      rw [validateFilesAux_cons_err rest hvf] at h
      have he : e2 = e := by cases e; cases e2; rfl
      subst he
      exact validateFilesAux_cons_err (rest ++ l2) hvf
    | ok st2 =>
      rw [validateFilesAux_cons_ok rest hvf] at h
      rw [validateFilesAux_cons_ok (rest ++ l2) hvf]
      exact ih l2 st2 e h

/-- Skeleton of the forward direction: if some file of the map is
guaranteed to leave non-empty errors whenever its own validation returns,
then `validate_all` (when it returns) returns `false` with a non-empty
error list. -/
theorem validate_all_mem_err (files : List (Chars × Chars)) (fp content : Chars)
    (st : VState) (b : Bool) (hm : (fp, content) ∈ files)
    (hstep : ∀ st1 st2 : VState, validate_file fp content st1 = .ok st2 → st2.errors ≠ [])
    (hva : validate_all files = .ok (st, b)) : b = false ∧ st.errors ≠ [] := by
  obtain ⟨l1, l2, rfl⟩ := List.append_of_mem hm
  unfold validate_all at hva
  cases hfull : validateFilesAux (l1 ++ (fp, content) :: l2) ⟨[], []⟩ with
  | error e => rw [hfull] at hva; exact absurd hva (by simp)
  | ok stF =>
    rw [hfull] at hva
    simp only [Except.ok.injEq, Prod.mk.injEq] at hva
    obtain ⟨rfl, rfl⟩ := hva
    have hne : stF.errors ≠ [] := by
      cases h1 : validateFilesAux l1 ⟨[], []⟩ with
      | error e =>
        rw [validateFilesAux_append_err l1 _ _ e h1] at hfull
        exact absurd hfull (by simp)
      | ok st1 =>
        rw [validateFilesAux_append_ok l1 _ _ st1 h1] at hfull
        cases hvf : validate_file fp content st1 with
        | error e =>
          rw [validateFilesAux_cons_err l2 hvf] at hfull
          exact absurd hfull (by simp)
        | ok st2 =>
          rw [validateFilesAux_cons_ok l2 hvf] at hfull
          have h2 : st2.errors ≠ [] := hstep st1 st2 hvf
          obtain ⟨δ, hδ⟩ := validateFilesAux_ok_errors l2 st2 stF hfull
          rw [hδ]
          simp only [ne_eq, List.append_eq_nil]
          intro hc
          exact h2 hc.1
    refine ⟨?_, hne⟩
    cases hE : stF.errors with
    | nil => exact absurd hE hne
    | cons a t => rfl

/-- The fence check on an `.md` file with an odd delimiter count always
leaves an error behind. -/
theorem md_step_err (fp content : Chars) (hsfx : path_suffix fp = strChars ".md")
    (hodd : countFences content % 2 = 1) :
    ∀ st1 st2 : VState, validate_file fp content st1 = .ok st2 → st2.errors ≠ [] := by
  intro st1 st2 h
  rw [validate_file_md fp content st1 hsfx] at h
  simp only [Except.ok.injEq] at h
  subst h
  rw [validate_common_errors, validate_markdown_errors, if_pos (by omega)]
  simp

/-- The fence check on the body of a structurally well-formed `.mdc` file
with an odd body delimiter count always leaves an error behind (when the
frontmatter key checks do not raise). -/
theorem mdc_step_err (fp content p0 p1 p2 : Chars)
    (hsfx : path_suffix fp = strChars ".mdc")
    (hpf : (strChars "---").isPrefixOf content = true)
    (hsp : pySplit2On (strChars "---") content = [p0, p1, p2])
    (hodd : countFences p2 % 2 = 1) :
    ∀ st1 st2 : VState, validate_file fp content st1 = .ok st2 → st2.errors ≠ [] := by
  intro st1 st2 h
  rw [validate_file_mdc fp content st1 hsfx] at h
  cases hmd : validate_mdc fp content st1 with
  | error e => rw [hmd] at h; exact absurd h (by simp)
  | ok st3 =>
    rw [hmd] at h
    simp only [Except.ok.injEq] at h
    subst h
    rw [validate_common_errors]
    unfold validate_mdc at hmd
    rw [hsp] at hmd
    simp only [hpf, Bool.not_true, Bool.false_eq_true, if_false] at hmd
    split at hmd
    · -- frontmatter fails to parse: both the YAML error and the fence error land
      simp only [Except.ok.injEq] at hmd
      subst hmd
      rw [validate_markdown_errors, if_pos (by omega)]
      simp
    · -- frontmatter parses: the body fence check reports the odd count
      split at hmd
      · exact absurd hmd (by simp)
      · split at hmd
        · exact absurd hmd (by simp)
        · simp only [Except.ok.injEq] at hmd
          subst hmd
          rw [validate_markdown_errors, warnIf_errors, if_pos (by omega)]
          simp

/-- C2 (amended): an odd ``` count in the content of a `.md` file, or in the
post-frontmatter body (`parts[2]` of the `"---"` split) of an `.mdc` file,
forces — whenever `validate_all` returns at all — a `false` result with a
non-empty error list; and `validate_all` returns `true` exactly when no
error was accumulated, regardless of warnings.  (For `.mdc` files the
fence check runs on the body only: an odd count confined to the
frontmatter escapes it — see the counterexample.) -/
theorem C2_amended_validator_soundness :
    (∀ (files : List (Chars × Chars)) (fp content : Chars) (st : VState) (b : Bool),
      (fp, content) ∈ files → path_suffix fp = strChars ".md" →
      countFences content % 2 = 1 →
      validate_all files = .ok (st, b) → b = false ∧ st.errors ≠ []) ∧
    (∀ (files : List (Chars × Chars)) (fp content p0 p1 p2 : Chars) (st : VState) (b : Bool),
      (fp, content) ∈ files → path_suffix fp = strChars ".mdc" →
      (strChars "---").isPrefixOf content = true →
      pySplit2On (strChars "---") content = [p0, p1, p2] →
      countFences p2 % 2 = 1 →
      validate_all files = .ok (st, b) → b = false ∧ st.errors ≠ []) ∧
    (∀ (files : List (Chars × Chars)) (st : VState) (b : Bool),
      validate_all files = .ok (st, b) → (b = true ↔ st.errors = [])) := by
  refine ⟨?_, ?_, ?_⟩
  · intro files fp content st b hm hsfx hodd hva
    exact validate_all_mem_err files fp content st b hm (md_step_err fp content hsfx hodd) hva
  · intro files fp content p0 p1 p2 st b hm hsfx hpf hsp hodd hva
    exact validate_all_mem_err files fp content st b hm
      (mdc_step_err fp content p0 p1 p2 hsfx hpf hsp hodd) hva
  · intro files st b hva
    unfold validate_all at hva
    cases hfull : validateFilesAux files ⟨[], []⟩ with
    | error e => rw [hfull] at hva; exact absurd hva (by simp)
    | ok stF =>
      rw [hfull] at hva
      simp only [Except.ok.injEq, Prod.mk.injEq] at hva
      obtain ⟨rfl, rfl⟩ := hva
      exact List.isEmpty_iff

/-- Witness for C2 (amended): one `.md` file with an unterminated fence
makes `validate_all` return `false` with the fence error accumulated. -/
theorem C2_amended_witness :
    false = false ∧
      (⟨[strChars "doc.md: Unclosed code fence"], []⟩ : VState).errors ≠ [] :=
  C2_amended_validator_soundness.1 [(strChars "doc.md", strChars "# T\n```\ncode\n")]
    (strChars "doc.md") (strChars "# T\n```\ncode\n")
    ⟨[strChars "doc.md: Unclosed code fence"], []⟩ false
    (by decide) (by decide) (by decide) (by rfl)

end SyncStd
